import Mathlib

/-!
Verification of the two utility functions of the Smartmcqpro repository
(`src/services/geminiService.ts`): the JSON recovery routine `safeParseJSON`
and the LaTeX cleanup routine `cleanLatex`.

JavaScript strings are modelled as `List Char`.  `JSON.parse` is modelled by
an executable recursive-descent parser `jsonParse` following ECMA-404 / the
ECMAScript `JSON.parse` grammar; numbers are kept as their source lexemes
(no claim inspects numeric values), and `\uXXXX` escapes are decoded as
single code points without surrogate-pair combination (no claim touches
non-BMP text).
-/

namespace Smartmcqpro

/-- A JSON value as produced by `JSON.parse`.  Object fields are kept in
property order (first occurrence position, last value for duplicate keys),
matching JavaScript object semantics. -/
inductive Json where
  | null : Json
  | bool (b : Bool) : Json
  | num (lexeme : List Char) : Json
  | str (s : List Char) : Json
  | arr (elems : List Json) : Json
  | obj (fields : List (List Char × Json)) : Json

/-- JSON insignificant whitespace (ECMA-404: space, tab, line feed, carriage
return). -/
def isJsonWS (c : Char) : Bool :=
  c = ' ' || c = '\t' || c = '\n' || c = '\r'

def skipWS (s : List Char) : List Char :=
  s.dropWhile isJsonWS

def isHexDigit (c : Char) : Bool :=
  c.isDigit || ('a' ≤ c && c ≤ 'f') || ('A' ≤ c && c ≤ 'F')

def hexVal (c : Char) : Nat :=
  if c.isDigit then c.toNat - '0'.toNat
  else if 'a' ≤ c && c ≤ 'f' then c.toNat - 'a'.toNat + 10
  else c.toNat - 'A'.toNat + 10

/-- Body of a JSON string literal, after the opening quote.  Returns the
decoded characters and the remaining input after the closing quote.
Raw control characters below U+0020 are rejected, as in `JSON.parse`. -/
def parseStringBody : List Char → Option (List Char × List Char)
  | '"' :: rest => some ([], rest)
  | '\\' :: e :: rest =>
    match e with
    | '"' => (parseStringBody rest).map (fun p => ('"' :: p.1, p.2))
    | '\\' => (parseStringBody rest).map (fun p => ('\\' :: p.1, p.2))
    | '/' => (parseStringBody rest).map (fun p => ('/' :: p.1, p.2))
    | 'b' => (parseStringBody rest).map (fun p => ('\x08' :: p.1, p.2))
    | 'f' => (parseStringBody rest).map (fun p => ('\x0c' :: p.1, p.2))
    | 'n' => (parseStringBody rest).map (fun p => ('\n' :: p.1, p.2))
    | 'r' => (parseStringBody rest).map (fun p => ('\r' :: p.1, p.2))
    | 't' => (parseStringBody rest).map (fun p => ('\t' :: p.1, p.2))
    | 'u' =>
      match rest with
      | h1 :: h2 :: h3 :: h4 :: rest2 =>
        if isHexDigit h1 && isHexDigit h2 && isHexDigit h3 && isHexDigit h4 then
          let v := ((hexVal h1 * 16 + hexVal h2) * 16 + hexVal h3) * 16 + hexVal h4
          (parseStringBody rest2).map (fun p => (Char.ofNat v :: p.1, p.2))
        else none
      | _ => none
    | _ => none
  | c :: rest =>
    if c.toNat < 32 then none
    else (parseStringBody rest).map (fun p => (c :: p.1, p.2))
  | [] => none

/-- Lexeme of a JSON number: `-? (0 | [1-9][0-9]*) (. [0-9]+)? ([eE][+-]?[0-9]+)?`.
Returns the lexeme characters and the rest of the input. -/
def parseNumberLex (s : List Char) : Option (List Char × List Char) :=
  let (neg, s1) := match s with
    | '-' :: r => (['-'], r)
    | _ => (([] : List Char), s)
  match s1 with
  | c :: r =>
    if c = '0' then
      let (fr, r2) := parseFracExp r
      some (neg ++ ['0'] ++ fr, r2)
    else if c.isDigit then
      let ds := r.takeWhile Char.isDigit
      let r1 := r.dropWhile Char.isDigit
      let (fr, r2) := parseFracExp r1
      some (neg ++ (c :: ds) ++ fr, r2)
    else none
  | [] => none
where
  parseFrac (s : List Char) : Option (List Char × List Char) :=
    match s with
    | '.' :: r =>
      let ds := r.takeWhile Char.isDigit
      if ds.isEmpty then none else some ('.' :: ds, r.dropWhile Char.isDigit)
    | _ => none
  parseExp (s : List Char) : Option (List Char × List Char) :=
    match s with
    | e :: r =>
      if e = 'e' || e = 'E' then
        let (sgn, r1) := match r with
          | '+' :: rr => (['+'], rr)
          | '-' :: rr => (['-'], rr)
          | _ => (([] : List Char), r)
        let ds := r1.takeWhile Char.isDigit
        if ds.isEmpty then none else some (e :: (sgn ++ ds), r1.dropWhile Char.isDigit)
      else none
    | [] => none
  parseFracExp (s : List Char) : List Char × List Char :=
    let (fp, s1) := match parseFrac s with
      | some (fp, s1) => (fp, s1)
      | none => (([] : List Char), s)
    match parseExp s1 with
    | some (ep, s2) => (fp ++ ep, s2)
    | none => (fp, s1)

/-- Record a parsed object member.  JavaScript semantics for duplicate keys:
the property keeps its first position but takes the last value. -/
def insertField (fields : List (List Char × Json)) (k : List Char) (v : Json) :
    List (List Char × Json) :=
  if fields.any (fun kv => kv.1 = k) then
    fields.map (fun kv => if kv.1 = k then (kv.1, v) else kv)
  else fields ++ [(k, v)]

mutual

/-- One JSON value.  `fuel` bounds recursion depth; every recursive call
consumes input, so `3 * length + 8` units (see `jsonParse`) never run out. -/
def parseValue : Nat → List Char → Option (Json × List Char)
  | 0, _ => none
  | fuel + 1, s =>
    match skipWS s with
    | 'n' :: 'u' :: 'l' :: 'l' :: r => some (.null, r)
    | 't' :: 'r' :: 'u' :: 'e' :: r => some (.bool true, r)
    | 'f' :: 'a' :: 'l' :: 's' :: 'e' :: r => some (.bool false, r)
    | '"' :: r => (parseStringBody r).map (fun p => (.str p.1, p.2))
    | '[' :: r => parseArrayRest fuel r
    | '{' :: r => parseObjectRest fuel r
    | c :: r =>
      if c = '-' || c.isDigit then
        (parseNumberLex (c :: r)).map (fun p => (.num p.1, p.2))
      else none
    | [] => none

/-- After the opening `[`. -/
def parseArrayRest : Nat → List Char → Option (Json × List Char)
  | 0, _ => none
  | fuel + 1, s =>
    match skipWS s with
    | ']' :: r => some (.arr [], r)
    | _ => parseElems fuel [] s

/-- Comma-separated array elements followed by `]`. -/
def parseElems : Nat → List Json → List Char → Option (Json × List Char)
  | 0, _, _ => none
  | fuel + 1, acc, s =>
    match parseValue fuel s with
    | none => none
    | some (v, r) =>
      match skipWS r with
      | ',' :: r2 => parseElems fuel (acc ++ [v]) r2
      | ']' :: r2 => some (.arr (acc ++ [v]), r2)
      | _ => none

/-- After the opening `{`. -/
def parseObjectRest : Nat → List Char → Option (Json × List Char)
  | 0, _ => none
  | fuel + 1, s =>
    match skipWS s with
    | '}' :: r => some (.obj [], r)
    | _ => parseMembers fuel [] s

/-- Comma-separated `"key" : value` members followed by `}`. -/
def parseMembers : Nat → List (List Char × Json) → List Char →
    Option (Json × List Char)
  | 0, _, _ => none
  | fuel + 1, acc, s =>
    match skipWS s with
    | '"' :: r =>
      match parseStringBody r with
      | none => none
      | some (k, r1) =>
        match skipWS r1 with
        | ':' :: r2 =>
          match parseValue fuel r2 with
          | none => none
          | some (v, r3) =>
            match skipWS r3 with
            | ',' :: r4 => parseMembers fuel (insertField acc k v) r4
            | '}' :: r4 => some (.obj (insertField acc k v), r4)
            | _ => none
        | _ => none
    | _ => none

end

/-- Model of JavaScript `JSON.parse` (success as `some`, `SyntaxError` as
`none`). -/
def jsonParse (s : List Char) : Option Json :=
  match parseValue (3 * s.length + 8) s with
  | some (v, r) => if (skipWS r).isEmpty then some v else none
  | none => none

/-- `JSON.parse` as a throwing computation: `SyntaxError` becomes
`Except.error ()`. -/
def jsonParseE (s : List Char) : Except Unit Json :=
  match jsonParse s with
  | some v => .ok v
  | none => .error ()

def Json.isArr : Json → Bool
  | .arr _ => true
  | _ => false

def natOfDigits (k : List Char) : Nat :=
  k.foldl (fun acc c => 10 * acc + (c.toNat - '0'.toNat)) 0

/-- Whether a property key is an array-index key in the sense of the
ECMAScript ordinary own-property order: the canonical decimal form of an
integer below 2^32 - 1. -/
def isArrayIndexKey (k : List Char) : Bool :=
  !k.isEmpty && k.all Char.isDigit &&
    (k = ['0'] || k.head? ≠ some '0') &&
    natOfDigits k < 4294967295

def keyLE (a b : List Char × Json) : Prop :=
  natOfDigits a.1 ≤ natOfDigits b.1

instance : DecidableRel keyLE := fun a b =>
  Nat.decLe (natOfDigits a.1) (natOfDigits b.1)

/-- Fields of an object in the order `Object.values` enumerates them:
array-index keys first in ascending numeric order, then the remaining keys
in property (insertion) order. -/
def jsOrderedFields (fields : List (List Char × Json)) : List (List Char × Json) :=
  List.insertionSort keyLE (fields.filter (fun kv => isArrayIndexKey kv.1)) ++
    fields.filter (fun kv => !isArrayIndexKey kv.1)

/-- `Object.values` of a parsed object. -/
def jsValues (fields : List (List Char × Json)) : List Json :=
  (jsOrderedFields fields).map Prod.snd

/-- The first array among an object's values in enumeration order
(`values.find(v => Array.isArray(v))`), or `[]` when there is none. -/
def firstArrayValue (fields : List (List Char × Json)) : List Json :=
  match (jsValues fields).find? Json.isArr with
  | some (.arr vs) => vs
  | _ => []

/-- The `try` body of `safeParseJSON`, applied to the strictly parsed value:
return an array as-is; scan an object's values for the first array; anything
else yields `[]`. -/
def strictBranch : Json → List Json
  | .arr vs => vs
  | .obj fields => firstArrayValue fields
  | _ => []

/-- ECMAScript `String.prototype.trim` whitespace (WhiteSpace and
LineTerminator code points). -/
def isTrimWS (c : Char) : Bool :=
  c ∈ [' ', '\t', '\n', '\r', '\x0b', '\x0c', ' ', ' ',
       ' ', ' ', ' ', ' ', ' ', ' ', ' ',
       ' ', ' ', ' ', ' ', ' ', ' ', ' ',
       ' ', '　', '﻿']

/-- `jsonString.trim()`. -/
def trimList (s : List Char) : List Char :=
  ((s.dropWhile isTrimWS).reverse.dropWhile isTrimWS).reverse

/-- Does `sub` occur in `s` at index `i` (`sub` is a prefix of `s.drop i`)? -/
def matchesAt (sub s : List Char) (i : Nat) : Bool :=
  (s.drop i).take sub.length = sub

/-- Scan indices `n-1, n-2, …, 0` for the last occurrence of `sub`. -/
def lastOccAux (sub s : List Char) : Nat → Option Nat
  | 0 => none
  | i + 1 => if matchesAt sub s i then some i else lastOccAux sub s i

/-- `s.lastIndexOf(sub)` (`none` for JavaScript's `-1`). -/
def lastOcc (sub s : List Char) : Option Nat :=
  lastOccAux sub s (s.length + 1)

/-- The record-separator pattern the repair path truncates at. -/
def sepPat : List Char := ['}', ',']

/-- The `catch` branch's repaired candidate string, when one is attempted:
trim, drop everything before the first `[`, truncate after the last `},`,
append `]`.  `none` when there is no `},` (no re-parse is attempted). -/
def repairCandidate (s : List Char) : Option (List Char) :=
  let c0 := trimList s
  let c1 := match c0.findIdx? (fun c => c = '[') with
    | some i => c0.drop i
    | none => c0
  match lastOcc sepPat c1 with
  | some j => some (c1.take (j + 1) ++ [']'])
  | none => none

/-- Models the unchecked `as any[]` cast on the repaired re-parse result.
The repaired text ends in `]`, so a successful parse is always an array and
the non-array case is unreachable. -/
def castArr : Json → List Json
  | .arr vs => vs
  | v => [v]

/-- `safeParseJSON` as the throwing computation written in the source:
`try { … JSON.parse … } catch { … try { JSON.parse } catch {} … }`. -/
def safeParseJSONE (s : List Char) : Except Unit (List Json) :=
  Except.tryCatch
    (do
      let parsed ← jsonParseE s
      pure (strictBranch parsed))
    (fun _ =>
      match repairCandidate s with
      | some c2 =>
        Except.tryCatch
          (do
            let v ← jsonParseE c2
            pure (castArr v))
          (fun _ => pure [])
      | none => pure [])

/-- The value `safeParseJSON` returns (its computation never escapes with an
error). -/
def safeParseJSON (s : List Char) : List Json :=
  match safeParseJSONE s with
  | .ok l => l
  | .error _ => []

/-! ### The `cleanLatex` rewrite pipeline

Each chained `.replace(/…/g, …)` of the source is one pass below, in source
order.  A pass scans left to right, replaces the leftmost match, and resumes
immediately after the replaced original text, exactly as a global-flag
`String.prototype.replace` does. -/

/-- The character class `\s` of a non-unicode-flag JavaScript regex; the same
code-point set as `String.prototype.trim` whitespace. -/
def isRegexWS (c : Char) : Bool :=
  isTrimWS c

/-- The word-character class `\w` = `[A-Za-z0-9_]` deciding `\b` boundaries. -/
def isWordChar (c : Char) : Bool :=
  c.isDigit || ('a' ≤ c && c ≤ 'z') || ('A' ≤ c && c ≤ 'Z') || c = '_'

/-- `\b` on the left of a match: start of string or a non-word character
before a word character. -/
def leftBoundary : Option Char → Bool
  | none => true
  | some c => !isWordChar c

/-- `\b` on the right of a match ending in a word character: end of string
or a non-word character next. -/
def rightBoundary : List Char → Bool
  | [] => true
  | c :: _ => !isWordChar c

/-- Pass 1: `.replace(/\\t/g, ' ')` — a literal backslash-t pair becomes a
space. -/
def replaceLitTab : List Char → List Char
  | '\\' :: 't' :: rest => ' ' :: replaceLitTab rest
  | c :: rest => c :: replaceLitTab rest
  | [] => []

/-- Pass 2: `.replace(/\t/g, ' ')` — a tab character becomes a space. -/
def replaceTabChar : List Char → List Char
  | '\t' :: rest => ' ' :: replaceTabChar rest
  | c :: rest => c :: replaceTabChar rest
  | [] => []

/-- Pass 3: `.replace(/\\n/g, '\n')` — a literal backslash-n pair becomes a
newline character. -/
def replaceLitNewline : List Char → List Char
  | '\\' :: 'n' :: rest => '\n' :: replaceLitNewline rest
  | c :: rest => c :: replaceLitNewline rest
  | [] => []

/-- The second capture group `(\d|10)` of pass 4.  Ordered alternation:
`\d` is tried first, so the `10` alternative can never fire (its first
character `1` already matches `\d`); it is kept for faithfulness. -/
def matchSecondFactor : List Char → Option (List Char × List Char)
  | c :: r =>
    if c.isDigit then some ([c], r)
    else
      match c, r with
      | '1', '0' :: r2 => some (['1', '0'], r2)
      | _, _ => none
  | [] => none

/-- A match of `(\d|\})\s*imes\s*(\d|10)` at the head of the input, returning
the replacement `'$1 \times $2'` and the rest.  The greedy `\s*` needs no
backtracking because `i` and the digits are not whitespace. -/
def tryTimesBetween : List Char → Option (List Char × List Char)
  | c1 :: r0 =>
    if c1.isDigit || c1 = '}' then
      match r0.dropWhile isRegexWS with
      | 'i' :: 'm' :: 'e' :: 's' :: r1 =>
        match matchSecondFactor (r1.dropWhile isRegexWS) with
        | some (g2, r2) =>
          some (c1 :: ' ' :: '\\' :: 't' :: 'i' :: 'm' :: 'e' :: 's' :: ' ' :: g2, r2)
        | none => none
      | _ => none
    else none
  | [] => none

/-- Scanner for pass 4.  The fuel equals the input length; every step
consumes at least one input character, so it never runs out. -/
def replaceTimesBetweenAux : Nat → List Char → List Char
  | 0, s => s
  | _, [] => []
  | f + 1, c :: cs =>
    match tryTimesBetween (c :: cs) with
    | some (repl, rest) => repl ++ replaceTimesBetweenAux f rest
    | none => c :: replaceTimesBetweenAux f cs

/-- Pass 4: `.replace(/(\d|\})\s*imes\s*(\d|10)/g, '$1 \\times $2')`. -/
def replaceTimesBetween (s : List Char) : List Char :=
  replaceTimesBetweenAux s.length s

/-- Scanner for pass 5, carrying the previous original character for the
left `\b` test.  The fuel equals the input length; every step consumes at
least one input character, so it never runs out. -/
def replaceImesWordAux : Nat → Option Char → List Char → List Char
  | 0, _, s => s
  | _, _, [] => []
  | f + 1, prev, 'i' :: rest =>
    match rest with
    | 'm' :: 'e' :: 's' :: rest2 =>
      if leftBoundary prev && rightBoundary rest2 then
        '\\' :: 't' :: 'i' :: 'm' :: 'e' :: 's' :: replaceImesWordAux f (some 's') rest2
      else 'i' :: replaceImesWordAux f (some 'i') rest
    | _ => 'i' :: replaceImesWordAux f (some 'i') rest
  | f + 1, _, c :: rest => c :: replaceImesWordAux f (some c) rest

/-- Pass 5: `.replace(/\bimes\b/g, '\\times')`. -/
def replaceImesWord (s : List Char) : List Char :=
  replaceImesWordAux s.length none s

/-- Pass 6: `.replace(/extmu/g, '\\mu')`. -/
def replaceExtmu : List Char → List Char
  | 'e' :: 'x' :: 't' :: 'm' :: 'u' :: rest => '\\' :: 'm' :: 'u' :: replaceExtmu rest
  | c :: rest => c :: replaceExtmu rest
  | [] => []

/-- A match of `(\d)\s*mu\b` at the head of the input, returning the
replacement `'$1\mu'` and the rest. -/
def tryDigitMu : List Char → Option (List Char × List Char)
  | c1 :: r0 =>
    if c1.isDigit then
      match r0.dropWhile isRegexWS with
      | 'm' :: 'u' :: r1 =>
        if rightBoundary r1 then some ([c1, '\\', 'm', 'u'], r1) else none
      | _ => none
    else none
  | [] => none

/-- Scanner for pass 7. -/
def replaceDigitMuAux : Nat → List Char → List Char
  | 0, s => s
  | _, [] => []
  | f + 1, c :: cs =>
    match tryDigitMu (c :: cs) with
    | some (repl, rest) => repl ++ replaceDigitMuAux f rest
    | none => c :: replaceDigitMuAux f cs

/-- Pass 7: `.replace(/(\d)\s*mu\b/g, '$1\\mu')`. -/
def replaceDigitMu (s : List Char) : List Char :=
  replaceDigitMuAux s.length s

/-- The replacement text `'^\circ'` shared by passes 8–12. -/
def circRepl : List Char := ['^', '\\', 'c', 'i', 'r', 'c']

/-- A match of `\^e\s*xto` at the head of the input. -/
def tryCaretEXto : List Char → Option (List Char)
  | '^' :: 'e' :: r0 =>
    match r0.dropWhile isRegexWS with
    | 'x' :: 't' :: 'o' :: r1 => some r1
    | _ => none
  | _ => none

/-- Scanner for pass 8. -/
def replaceCaretEXtoAux : Nat → List Char → List Char
  | 0, s => s
  | _, [] => []
  | f + 1, c :: cs =>
    match tryCaretEXto (c :: cs) with
    | some rest => circRepl ++ replaceCaretEXtoAux f rest
    | none => c :: replaceCaretEXtoAux f cs

/-- Pass 8: `.replace(/\^e\s*xto/g, '^\\circ')`. -/
def replaceCaretEXto (s : List Char) : List Char :=
  replaceCaretEXtoAux s.length s

/-- Pass 9: `.replace(/xto/g, '^\\circ')`. -/
def replaceXto : List Char → List Char
  | 'x' :: 't' :: 'o' :: rest => circRepl ++ replaceXto rest
  | c :: rest => c :: replaceXto rest
  | [] => []

/-- Pass 10: `.replace(/\^e/g, '^\\circ')`. -/
def replaceCaretE : List Char → List Char
  | '^' :: 'e' :: rest => circRepl ++ replaceCaretE rest
  | c :: rest => c :: replaceCaretE rest
  | [] => []

/-- Pass 11: `.replace(/deg/g, '^\\circ')`. -/
def replaceDeg : List Char → List Char
  | 'd' :: 'e' :: 'g' :: rest => circRepl ++ replaceDeg rest
  | c :: rest => c :: replaceDeg rest
  | [] => []

/-- Pass 12: `.replace(/\\text\{o\}/g, '^\\circ')`. -/
def replaceTextO : List Char → List Char
  | '\\' :: 't' :: 'e' :: 'x' :: 't' :: '{' :: 'o' :: '}' :: rest =>
    circRepl ++ replaceTextO rest
  | c :: rest => c :: replaceTextO rest
  | [] => []

/-- Pass 13: `.replace(/Ksp/g, 'K_{sp}')`. -/
def replaceKsp : List Char → List Char
  | 'K' :: 's' :: 'p' :: rest =>
    'K' :: '_' :: '{' :: 's' :: 'p' :: '}' :: replaceKsp rest
  | c :: rest => c :: replaceKsp rest
  | [] => []

/-- Pass 14: `.replace(/Ca\(OH\)2/g, 'Ca(OH)_2')`. -/
def replaceCaOH2 : List Char → List Char
  | 'C' :: 'a' :: '(' :: 'O' :: 'H' :: ')' :: '2' :: rest =>
    'C' :: 'a' :: '(' :: 'O' :: 'H' :: ')' :: '_' :: '2' :: replaceCaOH2 rest
  | c :: rest => c :: replaceCaOH2 rest
  | [] => []

/-- Pass 15: `.replace(/NaOH/g, 'NaOH')` — an identity rewrite, kept for
faithfulness. -/
def replaceNaOH : List Char → List Char
  | 'N' :: 'a' :: 'O' :: 'H' :: rest => 'N' :: 'a' :: 'O' :: 'H' :: replaceNaOH rest
  | c :: rest => c :: replaceNaOH rest
  | [] => []

/-- Pass 16: `.replace(/\\boldsymbol/g, '')`. -/
def replaceBoldsymbol : List Char → List Char
  | '\\' :: 'b' :: 'o' :: 'l' :: 'd' :: 's' :: 'y' :: 'm' :: 'b' :: 'o' :: 'l' :: rest =>
    replaceBoldsymbol rest
  | c :: rest => c :: replaceBoldsymbol rest
  | [] => []

/-- Pass 17: `.replace(/\\style/g, '')`. -/
def replaceStyle : List Char → List Char
  | '\\' :: 's' :: 't' :: 'y' :: 'l' :: 'e' :: rest => replaceStyle rest
  | c :: rest => c :: replaceStyle rest
  | [] => []

/-- Pass 18: `.replace(/\\oldtext/g, '')`. -/
def replaceOldtext : List Char → List Char
  | '\\' :: 'o' :: 'l' :: 'd' :: 't' :: 'e' :: 'x' :: 't' :: rest => replaceOldtext rest
  | c :: rest => c :: replaceOldtext rest
  | [] => []

/-- The whole rewrite pipeline of `cleanLatex` on a string input, passes in
source order. -/
def cleanPipeline (s : List Char) : List Char :=
  let s1 := replaceLitTab s
  let s2 := replaceTabChar s1
  let s3 := replaceLitNewline s2
  let s4 := replaceTimesBetween s3
  let s5 := replaceImesWord s4
  let s6 := replaceExtmu s5
  let s7 := replaceDigitMu s6
  let s8 := replaceCaretEXto s7
  let s9 := replaceXto s8
  let s10 := replaceCaretE s9
  let s11 := replaceDeg s10
  let s12 := replaceTextO s11
  let s13 := replaceKsp s12
  let s14 := replaceCaOH2 s13
  let s15 := replaceNaOH s14
  let s16 := replaceBoldsymbol s15
  let s17 := replaceStyle s16
  let s18 := replaceOldtext s17
  s18

/-- A JavaScript value passed to `cleanLatex (text: any)`: a string, or any
of the non-string shapes the `typeof` guard rejects. -/
inductive JsArg where
  | str (s : List Char) : JsArg
  | nullArg : JsArg
  | undefArg : JsArg
  | numArg : JsArg
  | boolArg : JsArg
  | objArg : JsArg

/-- Models `cleanLatex`: non-string input maps to the empty string, string
input runs the rewrite pipeline. -/
def cleanLatex : JsArg → List Char
  | .str s => cleanPipeline s
  | _ => []

/-- The decimal digit characters (the regex class `\d`). -/
def digitChars : List Char :=
  ['0', '1', '2', '3', '4', '5', '6', '7', '8', '9']

/-- Characters that cannot take part in any match of the rewrite pipeline:
every pass needs at least one of the excluded characters somewhere in its
pattern, so a string over this alphabet is a fixed point of `cleanLatex`
(strictly clean text). -/
def inertChar (c : Char) : Bool :=
  !(c ∈ ['\\', '\t', 'i', 'x', 'u', '^', 'g', 'K', 'C', 'N'])

/-- The token deleted by pass 16, `\boldsymbol`. -/
def boldsymbolTok : List Char :=
  ['\\', 'b', 'o', 'l', 'd', 's', 'y', 'm', 'b', 'o', 'l']

/-- The token deleted by pass 17, `\style`. -/
def styleTok : List Char :=
  ['\\', 's', 't', 'y', 'l', 'e']

/-- The token deleted by pass 18, `\oldtext`. -/
def oldtextTok : List Char :=
  ['\\', 'o', 'l', 'd', 't', 'e', 'x', 't']

/-! ### Concrete example inputs -/

/-- The spec's truncated example, up to but excluding the closing brace of
the last complete record: `{"q":"2 imes 3?","o":["5","6"],"a":"6"`. -/
def truncGood : List Char :=
  ['{', '"', 'q', '"', ':', '"', '2', ' ', 'i', 'm', 'e', 's', ' ', '3', '?',
   '"', ',', '"', 'o', '"', ':', '[', '"', '5', '"', ',', '"', '6', '"', ']',
   ',', '"', 'a', '"', ':', '"', '6', '"']

/-- The truncated trailing record of the spec's example: `{"q":"truncated`. -/
def truncTail : List Char :=
  ['{', '"', 'q', '"', ':', '"', 't', 'r', 'u', 'n', 'c', 'a', 't', 'e', 'd']

/-- The record recovered from the spec's truncated example. -/
def truncRecord : Json :=
  Json.obj
    [(['q'], Json.str ['2', ' ', 'i', 'm', 'e', 's', ' ', '3', '?']),
     (['o'], Json.arr [Json.str ['5'], Json.str ['6']]),
     (['a'], Json.str ['6'])]

/-- An invalid input with one complete leading record whose truncated
trailing record contains the separator pattern inside a string value:
`[{"q":"a"},{"q":"x},"`. -/
def c1CexInput : List Char :=
  ['[', '{', '"', 'q', '"', ':', '"', 'a', '"', '}', ',',
   '{', '"', 'q', '"', ':', '"', 'x', '}', ',', '"']

/-! ### Library of helper lemmas -/

/-- Evaluation of the try/catch structure of `safeParseJSONE` into its four
outcome branches. -/
lemma safeParseJSONE_eq (s : List Char) :
    safeParseJSONE s =
      match jsonParse s with
      | some v => .ok (strictBranch v)
      | none =>
        match repairCandidate s with
        | some c2 =>
          match jsonParse c2 with
          | some v => .ok (castArr v)
          | none => .ok []
        | none => .ok [] := by
  unfold safeParseJSONE jsonParseE
  cases hp : jsonParse s with
  | some v => simp [Except.tryCatch, Bind.bind, Except.bind, Pure.pure, Except.pure]
  | none =>
    cases hr : repairCandidate s with
    | some c2 =>
      cases hp2 : jsonParse c2 with
      | some v =>
        simp [Except.tryCatch, Bind.bind, Except.bind, Pure.pure, Except.pure, hp2]
      | none =>
        simp [Except.tryCatch, Bind.bind, Except.bind, Pure.pure, Except.pure, hp2]
    | none => simp [Except.tryCatch, Bind.bind, Except.bind, Pure.pure, Except.pure]

/-- The value of `safeParseJSON` by outcome branch. -/
lemma safeParseJSON_eq (s : List Char) :
    safeParseJSON s =
      match jsonParse s with
      | some v => strictBranch v
      | none =>
        match repairCandidate s with
        | some c2 =>
          match jsonParse c2 with
          | some v => castArr v
          | none => []
        | none => [] := by
  unfold safeParseJSON
  rw [safeParseJSONE_eq]
  cases jsonParse s with
  | some v => rfl
  | none =>
    cases repairCandidate s with
    | some c2 =>
      cases h : jsonParse c2 with
      | some v => simp [h]
      | none => simp [h]
    | none => rfl

/-- Every field of `jsOrderedFields fields` is a field of `fields` and vice
versa: enumeration order is a permutation of property order. -/
lemma jsOrderedFields_perm (fields : List (List Char × Json)) :
    (jsOrderedFields fields).Perm fields := by
  unfold jsOrderedFields
  exact ((List.perm_insertionSort keyLE _).append_right _).trans
    (List.filter_append_perm _ fields)

lemma mem_jsValues_iff (fields : List (List Char × Json)) (v : Json) :
    v ∈ jsValues fields ↔ ∃ p ∈ fields, p.2 = v := by
  unfold jsValues
  simp only [List.mem_map]
  constructor
  · rintro ⟨p, hp, rfl⟩
    exact ⟨p, ((jsOrderedFields_perm fields).mem_iff).mp hp, rfl⟩
  · rintro ⟨p, hp, rfl⟩
    exact ⟨p, ((jsOrderedFields_perm fields).mem_iff).mpr hp, rfl⟩

/-! ### Claim theorems -/

/-- C6: for every input string that is valid encoded JSON array syntax,
`safeParseJSON` returns exactly the decoded array, unchanged. -/
theorem c6_array_identity (s : List Char) (vs : List Json)
    (h : jsonParse s = some (Json.arr vs)) : safeParseJSON s = vs := by
  rw [safeParseJSON_eq, h]
  rfl

/-- Witness for C6 at the concrete input `[1, 2]`. -/
theorem c6_array_identity_witness :
    safeParseJSON ['[', '1', ',', ' ', '2', ']'] = [Json.num ['1'], Json.num ['2']] :=
  c6_array_identity ['[', '1', ',', ' ', '2', ']']
    [Json.num ['1'], Json.num ['2']] (by rfl)

/-- C2: `safeParseJSON` never raises: its try/catch computation always ends
in `Except.ok`, and when both the strict parse and the repaired re-parse
fail (or no repair is attempted) the result degrades to the empty
sequence. -/
theorem c2_recover_never_raises (s : List Char) :
    ∃ l, safeParseJSONE s = Except.ok l ∧ safeParseJSON s = l ∧
      (jsonParse s = none →
        (∀ c2, repairCandidate s = some c2 → jsonParse c2 = none) → l = []) := by
  refine ⟨safeParseJSON s, ?_, rfl, ?_⟩
  · rw [safeParseJSONE_eq, safeParseJSON_eq]
    cases jsonParse s with
    | some v => rfl
    | none =>
      cases repairCandidate s with
      | some c2 =>
        cases h : jsonParse c2 with
        | some v => simp [h]
        | none => simp [h]
      | none => rfl
  · intro hp hrep
    rw [safeParseJSON_eq, hp]
    cases hr : repairCandidate s with
    | some c2 => simp [hrep c2 hr]
    | none => simp

/-- Witness for C2 at the concrete unparseable input `garbage`. -/
theorem c2_recover_never_raises_witness :
    safeParseJSON ['g', 'a', 'r', 'b', 'a', 'g', 'e'] = [] := by
  obtain ⟨l, _, h2, h3⟩ := c2_recover_never_raises ['g', 'a', 'r', 'b', 'a', 'g', 'e']
  rw [h2]
  refine h3 (by rfl) ?_
  intro c2 hc2
  have hrc : repairCandidate ['g', 'a', 'r', 'b', 'a', 'g', 'e'] = none := by rfl
  rw [hrc] at hc2
  cases hc2

/-- C7: `cleanLatex` is total; every non-string input (null, undefined,
numbers, booleans, objects) is mapped to the empty string. -/
theorem c7_sanitize_total (x : JsArg) (h : ∀ s, x ≠ JsArg.str s) :
    cleanLatex x = [] := by
  cases x with
  | str s => exact absurd rfl (h s)
  | nullArg => rfl
  | undefArg => rfl
  | numArg => rfl
  | boolArg => rfl
  | objArg => rfl

/-- Witness for C7 at the concrete non-string input `null`. -/
theorem c7_sanitize_total_witness : cleanLatex JsArg.nullArg = [] :=
  c7_sanitize_total JsArg.nullArg (fun _ h => JsArg.noConfusion h)

/-- C10: the `deg` rewrite applies to every occurrence of the letter
sequence, with no word-boundary or math-context guard: the plain word
`degree` becomes `^\circree`, `adegb` becomes `a^\circb`, and both
occurrences in `degdeg` are rewritten. -/
theorem c10_deg_unconditional :
    cleanLatex (JsArg.str ['d', 'e', 'g', 'r', 'e', 'e']) =
      ['^', '\\', 'c', 'i', 'r', 'c', 'r', 'e', 'e'] ∧
    cleanLatex (JsArg.str ['a', 'd', 'e', 'g', 'b']) =
      ['a', '^', '\\', 'c', 'i', 'r', 'c', 'b'] ∧
    cleanLatex (JsArg.str ['d', 'e', 'g', 'd', 'e', 'g']) =
      ['^', '\\', 'c', 'i', 'r', 'c', '^', '\\', 'c', 'i', 'r', 'c'] :=
  ⟨by rfl, by rfl, by rfl⟩

/-! ### Occurrence lemmas for the repair path -/

lemma matchesAt_pre {sub s : List Char} {i : Nat}
    (h : matchesAt sub s i = true) : sub <+: s.drop i := by
  unfold matchesAt at h
  rw [decide_eq_true_iff] at h
  exact h ▸ List.take_prefix sub.length (s.drop i)

lemma matchesAt_occurs {sub s : List Char} {i : Nat}
    (h : matchesAt sub s i = true) : sub <:+: s :=
  (matchesAt_pre h).isInfix.trans (List.drop_suffix i s).isInfix

lemma lastOccAux_some_matches (sub s : List Char) :
    ∀ n i, lastOccAux sub s n = some i → matchesAt sub s i = true := by
  intro n
  induction n with
  | zero => intro i h; cases h
  | succ m ih =>
    intro i h
    unfold lastOccAux at h
    by_cases hm : matchesAt sub s m = true
    · rw [if_pos hm] at h
      cases h
      exact hm
    · rw [if_neg hm] at h
      exact ih i h

lemma lastOcc_eq_none (sub s : List Char) (h : ¬ sub <:+: s) :
    lastOcc sub s = none := by
  cases hl : lastOcc sub s with
  | none => rfl
  | some i =>
    exact absurd (matchesAt_occurs (lastOccAux_some_matches sub s _ i hl)) h

lemma trimList_occurs (s : List Char) : trimList s <:+: s := by
  unfold trimList
  have h1 : List.dropWhile isTrimWS s <:+ s := List.dropWhile_suffix _
  have h2 : (List.dropWhile isTrimWS (List.dropWhile isTrimWS s).reverse).reverse <+:
      List.dropWhile isTrimWS s := by
    rw [← List.reverse_suffix]
    simpa using List.dropWhile_suffix (l := (List.dropWhile isTrimWS s).reverse) isTrimWS
  exact h2.isInfix.trans h1.isInfix

/-- When the record-separator pattern occurs nowhere in the input, the
repair path builds no candidate. -/
lemma repairCandidate_none (s : List Char) (h : ¬ sepPat <:+: s) :
    repairCandidate s = none := by
  unfold repairCandidate
  cases hf : (trimList s).findIdx? (fun c => c = '[') with
  | some i =>
    have hinf : (trimList s).drop i <:+: s :=
      (List.drop_suffix i (trimList s)).isInfix.trans (trimList_occurs s)
    simp only [hf]
    rw [lastOcc_eq_none _ _ (fun hc => h (hc.trans hinf))]
  | none =>
    simp only [hf]
    rw [lastOcc_eq_none _ _ (fun hc => h (hc.trans (trimList_occurs s)))]

/-! ### Claim theorems (continued) -/

/-- C9: when the strict parse fails and the input contains no occurrence of
the two-character separator `},`, `safeParseJSON` returns the empty
sequence, even if the input contains a complete record. -/
theorem c9_no_separator_empty (s : List Char)
    (hp : jsonParse s = none) (hsep : ¬ sepPat <:+: s) :
    safeParseJSON s = [] := by
  rw [safeParseJSON_eq, hp, repairCandidate_none s hsep]

/-- Witness for C9 at the truncated single-record input `[{"q":"x"}`:
one complete record is present, but the result is empty. -/
theorem c9_no_separator_empty_witness :
    safeParseJSON ['[', '{', '"', 'q', '"', ':', '"', 'x', '"', '}'] = [] :=
  c9_no_separator_empty ['[', '{', '"', 'q', '"', ':', '"', 'x', '"', '}']
    (by rfl) (by decide)

/-- C5: for every input that strictly parses as a keyed object,
`safeParseJSON` returns the first array among the object's values in
JavaScript enumeration order; in particular it returns `[]` when no value
is an array, and the unique array-valued field's array when there is
exactly one. -/
theorem c5_object_scan (s : List Char) (fields : List (List Char × Json))
    (h : jsonParse s = some (Json.obj fields)) :
    safeParseJSON s = firstArrayValue fields ∧
    ((∀ p ∈ fields, Json.isArr p.2 = false) → safeParseJSON s = []) ∧
    (∀ vs : List Json, (∃ p ∈ fields, p.2 = Json.arr vs) →
      (∀ p ∈ fields, ∀ ws, p.2 = Json.arr ws → ws = vs) →
      safeParseJSON s = vs) := by
  have hbase : safeParseJSON s = firstArrayValue fields := by
    rw [safeParseJSON_eq, h]
    rfl
  refine ⟨hbase, ?_, ?_⟩
  · intro hnone
    rw [hbase]
    unfold firstArrayValue
    have hfind : (jsValues fields).find? Json.isArr = none := by
      rw [List.find?_eq_none]
      intro x hx
      obtain ⟨p, hp, hpx⟩ := (mem_jsValues_iff fields x).mp hx
      simp [← hpx, hnone p hp]
    rw [hfind]
  · intro vs ⟨p, hp, hpv⟩ huniq
    rw [hbase]
    unfold firstArrayValue
    have hex : ∃ x ∈ jsValues fields, Json.isArr x = true :=
      ⟨Json.arr vs, (mem_jsValues_iff fields (Json.arr vs)).mpr ⟨p, hp, hpv⟩, rfl⟩
    obtain ⟨w, hw⟩ := Option.isSome_iff_exists.mp (List.find?_isSome.mpr hex)
    have hwarr : Json.isArr w = true := List.find?_some hw
    obtain ⟨q, hq, hqv⟩ :=
      (mem_jsValues_iff fields w).mp (List.mem_of_find?_eq_some hw)
    cases w with
    | arr ws =>
      rw [hw]
      exact huniq q hq ws hqv
    | null => cases hwarr
    | bool b => cases hwarr
    | num l => cases hwarr
    | str l => cases hwarr
    | obj fs => cases hwarr

/-- Witness for C5 at the keyed object `{"n":1,"items":["a"],"z":2}` with
exactly one array-valued field. -/
theorem c5_object_scan_witness :
    safeParseJSON
      ['{', '"', 'n', '"', ':', '1', ',', '"', 'i', 't', 'e', 'm', 's', '"',
       ':', '[', '"', 'a', '"', ']', ',', '"', 'z', '"', ':', '2', '}'] =
      [Json.str ['a']] := by
  have h := c5_object_scan
    ['{', '"', 'n', '"', ':', '1', ',', '"', 'i', 't', 'e', 'm', 's', '"',
     ':', '[', '"', 'a', '"', ']', ',', '"', 'z', '"', ':', '2', '}']
    [(['n'], Json.num ['1']),
     (['i', 't', 'e', 'm', 's'], Json.arr [Json.str ['a']]),
     (['z'], Json.num ['2'])]
    (by rfl)
  rw [h.1]
  rfl

/-! ### Locating the last separator in a truncated array input -/

lemma lastOccAux_eq_some (sub s : List Char) (k : Nat) :
    ∀ n, k < n → matchesAt sub s k = true →
      (∀ j, k < j → j < n → matchesAt sub s j = false) →
      lastOccAux sub s n = some k := by
  intro n
  induction n with
  | zero => intro hk _ _; exact absurd hk (Nat.not_lt_zero k)
  | succ m ih =>
    intro hk hm hno
    unfold lastOccAux
    by_cases hmm : matchesAt sub s m = true
    · have heq : m = k := by
        by_contra hne
        have hkm : k < m := by omega
        rw [hno m hkm (Nat.lt_succ_self m)] at hmm
        cases hmm
      rw [if_pos hmm, heq]
    · rw [if_neg hmm]
      have hk' : k < m := by
        rcases Nat.lt_or_ge k m with h | h
        · exact h
        · have : k = m := by omega
          rw [this] at hm
          exact absurd hm hmm
      exact ih hk' hm (fun j h1 h2 => hno j h1 (Nat.lt_succ_of_lt h2))

lemma drop_append_ge (A t : List Char) (j : Nat) (h : A.length ≤ j) :
    (A ++ t).drop j = t.drop (j - A.length) := by
  obtain ⟨m, rfl⟩ : ∃ m, j = A.length + m := ⟨j - A.length, by omega⟩
  rw [← List.drop_drop, List.drop_left, Nat.add_sub_cancel_left]

/-- In `'[' ++ good ++ '},' ++ tail` with `},` nowhere in the tail, the last
occurrence of `},` is exactly at the end of `good` (index `good.length + 1`). -/
lemma lastOcc_at_boundary (good tail : List Char) (hng : ¬ sepPat <:+: tail) :
    lastOcc sepPat ('[' :: good ++ '}' :: ',' :: tail) = some (good.length + 1) := by
  have hdropk : ('[' :: good ++ '}' :: ',' :: tail).drop (good.length + 1) =
      '}' :: ',' :: tail := by
    have hseq : '[' :: good ++ '}' :: ',' :: tail =
        ('[' :: good) ++ ('}' :: ',' :: tail) := by simp
    have hlen : ('[' :: good).length = good.length + 1 := by simp
    rw [hseq, ← hlen]
    exact List.drop_left _ _
  apply lastOccAux_eq_some
  · simp
    omega
  · unfold matchesAt
    rw [hdropk]
    simp [sepPat]
  · intro j h1 h2
    rcases Nat.lt_or_ge j (good.length + 3) with hj | hj
    · have hj3 : j = good.length + 2 := by omega
      have hdropj : ('[' :: good ++ '}' :: ',' :: tail).drop j = ',' :: tail := by
        have hseq : '[' :: good ++ '}' :: ',' :: tail =
            ('[' :: good ++ ['}']) ++ (',' :: tail) := by simp
        have hlen2 : ('[' :: good ++ ['}']).length = good.length + 2 := by simp
        rw [hseq, hj3, ← hlen2]
        exact List.drop_left _ _
      unfold matchesAt
      rw [hdropj]
      cases tail with
      | nil => simp [sepPat]
      | cons t ts => simp [sepPat]
    · rcases Bool.eq_false_or_eq_true (matchesAt sepPat ('[' :: good ++ '}' :: ',' :: tail) j)
        with hb | hb
      · exfalso
        have hpre := matchesAt_pre hb
        have hseq : '[' :: good ++ '}' :: ',' :: tail =
            ('[' :: good ++ ['}', ',']) ++ tail := by simp
        have hlen3 : ('[' :: good ++ ['}', ',']).length = good.length + 3 := by simp
        rw [hseq, drop_append_ge _ _ _ (by rw [hlen3]; omega)] at hpre
        exact hng (hpre.isInfix.trans (List.drop_suffix _ _).isInfix)
      · exact hb

/-- On a trimmed input of the shape `'[' ++ good ++ '},' ++ tail`, the
repair path truncates exactly at the record boundary and closes the
array. -/
lemma repairCandidate_truncated (good tail : List Char)
    (hng : ¬ sepPat <:+: tail)
    (htrim : trimList ('[' :: good ++ '}' :: ',' :: tail) =
      '[' :: good ++ '}' :: ',' :: tail) :
    repairCandidate ('[' :: good ++ '}' :: ',' :: tail) =
      some ('[' :: good ++ ['}', ']']) := by
  have hfind : ('[' :: good ++ '}' :: ',' :: tail).findIdx? (fun c => c = '[') =
      some 0 := by
    simp [List.findIdx?_cons]
  have htake : ('[' :: good ++ '}' :: ',' :: tail).take (good.length + 1 + 1) =
      '[' :: good ++ ['}'] := by
    have hseq : '[' :: good ++ '}' :: ',' :: tail =
        ('[' :: good ++ ['}']) ++ (',' :: tail) := by simp
    have hlen2 : ('[' :: good ++ ['}']).length = good.length + 2 := by simp
    rw [hseq, show good.length + 1 + 1 = ('[' :: good ++ ['}']).length from by
      rw [hlen2]]
    exact List.take_left _ _
  simp only [repairCandidate, htrim, hfind, List.drop_zero,
    lastOcc_at_boundary good tail hng, htake]
  simp

/-- When the strict parse fails, a repair candidate exists, and the
candidate parses as an array, `safeParseJSON` returns that array. -/
lemma safeParseJSON_repair_ok (s c2 : List Char) (vs : List Json)
    (hp : jsonParse s = none) (hr : repairCandidate s = some c2)
    (h2 : jsonParse c2 = some (Json.arr vs)) : safeParseJSON s = vs := by
  rw [safeParseJSON_eq, hp, hr]
  simp [h2, castArr]

/-- C1 (counterexample): `[{"q":"a"},{"q":"x},"` is invalid JSON with one
complete leading record (the bracketed prefix parses), yet `safeParseJSON`
returns the empty sequence: the last `},` lies inside the truncated
record's string value, so the repaired text does not parse. -/
theorem c1_recover_truncated_counterexample :
    jsonParse c1CexInput = none ∧
    jsonParse ['[', '{', '"', 'q', '"', ':', '"', 'a', '"', '}', ']'] =
      some (Json.arr [Json.obj [(['q'], Json.str ['a'])]]) ∧
    safeParseJSON c1CexInput = [] :=
  ⟨by rfl, by rfl, by rfl⟩

/-- C1 (amended): for inputs of the shape `'[' ++ good ++ '},' ++ tail` —
complete records ending at a `},` separator followed by a truncated tail —
where the tail contains no occurrence of `},`, the input carries no
surrounding whitespace, the strict parse fails, and the truncated-and-closed
prefix `'[' ++ good ++ '}]'` parses as an array, `safeParseJSON` returns
exactly that array of leading complete records, dropping the truncated
record. -/
theorem c1_recover_truncated_amended (good tail : List Char) (vs : List Json)
    (hng : ¬ sepPat <:+: tail)
    (hfail : jsonParse ('[' :: good ++ '}' :: ',' :: tail) = none)
    (htrim : trimList ('[' :: good ++ '}' :: ',' :: tail) =
      '[' :: good ++ '}' :: ',' :: tail)
    (hrep : jsonParse ('[' :: good ++ ['}', ']']) = some (Json.arr vs)) :
    safeParseJSON ('[' :: good ++ '}' :: ',' :: tail) = vs :=
  safeParseJSON_repair_ok _ _ vs hfail
    (repairCandidate_truncated good tail hng htrim) hrep

/-- Witness for the amended C1 at the spec's example input
`[{"q":"2 imes 3?","o":["5","6"],"a":"6"},{"q":"truncated`: exactly the one
complete record is recovered. -/
theorem c1_recover_truncated_witness :
    safeParseJSON ('[' :: truncGood ++ '}' :: ',' :: truncTail) = [truncRecord] :=
  c1_recover_truncated_amended truncGood truncTail [truncRecord]
    (by decide) (by rfl) (by rfl) (by rfl)

/-! ### Trigger characters: a pass without its trigger is the identity -/

lemma replaceLitTab_id (s : List Char) (h : ('\\' : Char) ∉ s) :
    replaceLitTab s = s := by
  induction s with
  | nil => rfl
  | cons c cs ih =>
    have h1 : c ≠ '\\' := fun hcc => h (hcc ▸ List.mem_cons_self c cs)
    have h2 : ('\\' : Char) ∉ cs := fun hm => h (List.mem_cons_of_mem c hm)
    unfold replaceLitTab
    split
    · next rest heq =>
      injection heq with heqc _
      exact absurd heqc h1
    · next c' rest' hnot heq =>
      injection heq with heqc heqr
      subst heqc
      subst heqr
      rw [ih h2]
    · next heq => cases heq

lemma replaceTabChar_id (s : List Char) (h : ('\t' : Char) ∉ s) :
    replaceTabChar s = s := by
  induction s with
  | nil => rfl
  | cons c cs ih =>
    have h1 : c ≠ '\t' := fun hcc => h (hcc ▸ List.mem_cons_self c cs)
    have h2 : ('\t' : Char) ∉ cs := fun hm => h (List.mem_cons_of_mem c hm)
    unfold replaceTabChar
    split
    · next rest heq =>
      injection heq with heqc _
      exact absurd heqc h1
    · next c' rest' hnot heq =>
      injection heq with heqc heqr
      subst heqc
      subst heqr
      rw [ih h2]
    · next heq => cases heq

lemma replaceLitNewline_id (s : List Char) (h : ('\\' : Char) ∉ s) :
    replaceLitNewline s = s := by
  induction s with
  | nil => rfl
  | cons c cs ih =>
    have h1 : c ≠ '\\' := fun hcc => h (hcc ▸ List.mem_cons_self c cs)
    have h2 : ('\\' : Char) ∉ cs := fun hm => h (List.mem_cons_of_mem c hm)
    unfold replaceLitNewline
    split
    · next rest heq =>
      injection heq with heqc _
      exact absurd heqc h1
    · next c' rest' hnot heq =>
      injection heq with heqc heqr
      subst heqc
      subst heqr
      rw [ih h2]
    · next heq => cases heq

lemma replaceExtmu_id (s : List Char) (h : ('x' : Char) ∉ s) :
    replaceExtmu s = s := by
  induction s with
  | nil => rfl
  | cons c cs ih =>
    have h2 : ('x' : Char) ∉ cs := fun hm => h (List.mem_cons_of_mem c hm)
    unfold replaceExtmu
    split
    · next rest heq =>
      injection heq with _ heqr
      have : ('x' : Char) ∈ cs := by
        rw [heqr]
        exact List.mem_cons_self _ _
      exact absurd this h2
    · next c' rest' hnot heq =>
      injection heq with heqc heqr
      subst heqc
      subst heqr
      rw [ih h2]
    · next heq => cases heq

lemma replaceXto_id (s : List Char) (h : ('x' : Char) ∉ s) :
    replaceXto s = s := by
  induction s with
  | nil => rfl
  | cons c cs ih =>
    have h1 : c ≠ 'x' := fun hcc => h (hcc ▸ List.mem_cons_self c cs)
    have h2 : ('x' : Char) ∉ cs := fun hm => h (List.mem_cons_of_mem c hm)
    unfold replaceXto
    split
    · next rest heq =>
      injection heq with heqc _
      exact absurd heqc h1
    · next c' rest' hnot heq =>
      injection heq with heqc heqr
      subst heqc
      subst heqr
      rw [ih h2]
    · next heq => cases heq

lemma replaceCaretE_id (s : List Char) (h : ('^' : Char) ∉ s) :
    replaceCaretE s = s := by
  induction s with
  | nil => rfl
  | cons c cs ih =>
    have h1 : c ≠ '^' := fun hcc => h (hcc ▸ List.mem_cons_self c cs)
    have h2 : ('^' : Char) ∉ cs := fun hm => h (List.mem_cons_of_mem c hm)
    unfold replaceCaretE
    split
    · next rest heq =>
      injection heq with heqc _
      exact absurd heqc h1
    · next c' rest' hnot heq =>
      injection heq with heqc heqr
      subst heqc
      subst heqr
      rw [ih h2]
    · next heq => cases heq

lemma replaceDeg_id (s : List Char) (h : ('g' : Char) ∉ s) :
    replaceDeg s = s := by
  induction s with
  | nil => rfl
  | cons c cs ih =>
    have h2 : ('g' : Char) ∉ cs := fun hm => h (List.mem_cons_of_mem c hm)
    unfold replaceDeg
    split
    · next rest heq =>
      injection heq with _ heqr
      have : ('g' : Char) ∈ cs := by
        rw [heqr]
        exact List.mem_cons_of_mem _ (List.mem_cons_self _ _)
      exact absurd this h2
    · next c' rest' hnot heq =>
      injection heq with heqc heqr
      subst heqc
      subst heqr
      rw [ih h2]
    · next heq => cases heq

lemma replaceTextO_id (s : List Char) (h : ('\\' : Char) ∉ s) :
    replaceTextO s = s := by
  induction s with
  | nil => rfl
  | cons c cs ih =>
    have h1 : c ≠ '\\' := fun hcc => h (hcc ▸ List.mem_cons_self c cs)
    have h2 : ('\\' : Char) ∉ cs := fun hm => h (List.mem_cons_of_mem c hm)
    unfold replaceTextO
    split
    · next rest heq =>
      injection heq with heqc _
      exact absurd heqc h1
    · next c' rest' hnot heq =>
      injection heq with heqc heqr
      subst heqc
      subst heqr
      rw [ih h2]
    · next heq => cases heq

lemma replaceKsp_id (s : List Char) (h : ('K' : Char) ∉ s) :
    replaceKsp s = s := by
  induction s with
  | nil => rfl
  | cons c cs ih =>
    have h1 : c ≠ 'K' := fun hcc => h (hcc ▸ List.mem_cons_self c cs)
    have h2 : ('K' : Char) ∉ cs := fun hm => h (List.mem_cons_of_mem c hm)
    unfold replaceKsp
    split
    · next rest heq =>
      injection heq with heqc _
      exact absurd heqc h1
    · next c' rest' hnot heq =>
      injection heq with heqc heqr
      subst heqc
      subst heqr
      rw [ih h2]
    · next heq => cases heq

lemma replaceCaOH2_id (s : List Char) (h : ('C' : Char) ∉ s) :
    replaceCaOH2 s = s := by
  induction s with
  | nil => rfl
  | cons c cs ih =>
    have h1 : c ≠ 'C' := fun hcc => h (hcc ▸ List.mem_cons_self c cs)
    have h2 : ('C' : Char) ∉ cs := fun hm => h (List.mem_cons_of_mem c hm)
    unfold replaceCaOH2
    split
    · next rest heq =>
      injection heq with heqc _
      exact absurd heqc h1
    · next c' rest' hnot heq =>
      injection heq with heqc heqr
      subst heqc
      subst heqr
      rw [ih h2]
    · next heq => cases heq

lemma replaceNaOH_id (s : List Char) (h : ('N' : Char) ∉ s) :
    replaceNaOH s = s := by
  induction s with
  | nil => rfl
  | cons c cs ih =>
    have h1 : c ≠ 'N' := fun hcc => h (hcc ▸ List.mem_cons_self c cs)
    have h2 : ('N' : Char) ∉ cs := fun hm => h (List.mem_cons_of_mem c hm)
    unfold replaceNaOH
    split
    · next rest heq =>
      injection heq with heqc _
      exact absurd heqc h1
    · next c' rest' hnot heq =>
      injection heq with heqc heqr
      subst heqc
      subst heqr
      rw [ih h2]
    · next heq => cases heq

set_option maxHeartbeats 1000000 in
lemma replaceBoldsymbol_id (s : List Char) (h : ('\\' : Char) ∉ s) :
    replaceBoldsymbol s = s := by
  induction s with
  | nil => rfl
  | cons c cs ih =>
    have h1 : c ≠ '\\' := fun hcc => h (hcc ▸ List.mem_cons_self c cs)
    have h2 : ('\\' : Char) ∉ cs := fun hm => h (List.mem_cons_of_mem c hm)
    unfold replaceBoldsymbol
    split
    · next rest heq =>
      injection heq with heqc _
      exact absurd heqc h1
    · next c' rest' hnot heq =>
      injection heq with heqc heqr
      subst heqc
      subst heqr
      rw [ih h2]
    · next heq => cases heq

lemma replaceStyle_id (s : List Char) (h : ('\\' : Char) ∉ s) :
    replaceStyle s = s := by
  induction s with
  | nil => rfl
  | cons c cs ih =>
    have h1 : c ≠ '\\' := fun hcc => h (hcc ▸ List.mem_cons_self c cs)
    have h2 : ('\\' : Char) ∉ cs := fun hm => h (List.mem_cons_of_mem c hm)
    unfold replaceStyle
    split
    · next rest heq =>
      injection heq with heqc _
      exact absurd heqc h1
    · next c' rest' hnot heq =>
      injection heq with heqc heqr
      subst heqc
      subst heqr
      rw [ih h2]
    · next heq => cases heq

lemma replaceOldtext_id (s : List Char) (h : ('\\' : Char) ∉ s) :
    replaceOldtext s = s := by
  induction s with
  | nil => rfl
  | cons c cs ih =>
    have h1 : c ≠ '\\' := fun hcc => h (hcc ▸ List.mem_cons_self c cs)
    have h2 : ('\\' : Char) ∉ cs := fun hm => h (List.mem_cons_of_mem c hm)
    unfold replaceOldtext
    split
    · next rest heq =>
      injection heq with heqc _
      exact absurd heqc h1
    · next c' rest' hnot heq =>
      injection heq with heqc heqr
      subst heqc
      subst heqr
      rw [ih h2]
    · next heq => cases heq

lemma tryTimesBetween_mem {s : List Char} {p : List Char × List Char}
    (h : tryTimesBetween s = some p) : 'i' ∈ s := by
  unfold tryTimesBetween at h
  split at h
  · next c1 r0 =>
    by_cases hc : (c1.isDigit || decide (c1 = '}')) = true
    · rw [if_pos hc] at h
      split at h
      · next r1 heq =>
        have hmem : ('i' : Char) ∈ r0.dropWhile isRegexWS := by
          rw [heq]
          exact List.mem_cons_self _ _
        exact List.mem_cons_of_mem c1 ((List.dropWhile_suffix isRegexWS).subset hmem)
      · next => cases h
    · rw [if_neg hc] at h
      cases h
  · next => cases h

lemma replaceTimesBetweenAux_id :
    ∀ f s, ('i' : Char) ∉ s → replaceTimesBetweenAux f s = s := by
  intro f
  induction f with
  | zero => intro s _; cases s <;> rfl
  | succ g ih =>
    intro s h
    cases s with
    | nil => rfl
    | cons c cs =>
      have h2 : ('i' : Char) ∉ cs := fun hm => h (List.mem_cons_of_mem c hm)
      unfold replaceTimesBetweenAux
      cases htr : tryTimesBetween (c :: cs) with
      | some p => exact absurd (tryTimesBetween_mem htr) h
      | none =>
        simp only [htr]
        rw [ih cs h2]

lemma replaceTimesBetween_id (s : List Char) (h : ('i' : Char) ∉ s) :
    replaceTimesBetween s = s :=
  replaceTimesBetweenAux_id s.length s h

lemma tryDigitMu_mem {s : List Char} {p : List Char × List Char}
    (h : tryDigitMu s = some p) : 'u' ∈ s := by
  unfold tryDigitMu at h
  split at h
  · next c1 r0 =>
    by_cases hc : c1.isDigit = true
    · rw [if_pos hc] at h
      split at h
      · next r1 heq =>
        have hmem : ('u' : Char) ∈ r0.dropWhile isRegexWS := by
          rw [heq]
          exact List.mem_cons_of_mem _ (List.mem_cons_self _ _)
        exact List.mem_cons_of_mem c1 ((List.dropWhile_suffix isRegexWS).subset hmem)
      · next => cases h
    · rw [if_neg hc] at h
      cases h
  · next => cases h

lemma replaceDigitMuAux_id :
    ∀ f s, ('u' : Char) ∉ s → replaceDigitMuAux f s = s := by
  intro f
  induction f with
  | zero => intro s _; cases s <;> rfl
  | succ g ih =>
    intro s h
    cases s with
    | nil => rfl
    | cons c cs =>
      have h2 : ('u' : Char) ∉ cs := fun hm => h (List.mem_cons_of_mem c hm)
      unfold replaceDigitMuAux
      cases htr : tryDigitMu (c :: cs) with
      | some p => exact absurd (tryDigitMu_mem htr) h
      | none =>
        simp only [htr]
        rw [ih cs h2]

lemma replaceDigitMu_id (s : List Char) (h : ('u' : Char) ∉ s) :
    replaceDigitMu s = s :=
  replaceDigitMuAux_id s.length s h

lemma tryCaretEXto_mem {s : List Char} {p : List Char}
    (h : tryCaretEXto s = some p) : '^' ∈ s := by
  unfold tryCaretEXto at h
  split at h
  · next r0 =>
    exact List.mem_cons_self _ _
  · next => cases h

lemma replaceCaretEXtoAux_id :
    ∀ f s, ('^' : Char) ∉ s → replaceCaretEXtoAux f s = s := by
  intro f
  induction f with
  | zero => intro s _; cases s <;> rfl
  | succ g ih =>
    intro s h
    cases s with
    | nil => rfl
    | cons c cs =>
      have h2 : ('^' : Char) ∉ cs := fun hm => h (List.mem_cons_of_mem c hm)
      unfold replaceCaretEXtoAux
      cases htr : tryCaretEXto (c :: cs) with
      | some p => exact absurd (tryCaretEXto_mem htr) h
      | none =>
        simp only [htr]
        rw [ih cs h2]

lemma replaceCaretEXto_id (s : List Char) (h : ('^' : Char) ∉ s) :
    replaceCaretEXto s = s :=
  replaceCaretEXtoAux_id s.length s h

lemma replaceImesWordAux_id :
    ∀ f (prev : Option Char) s, ('i' : Char) ∉ s →
      replaceImesWordAux f prev s = s := by
  intro f
  induction f with
  | zero => intro prev s _; cases s <;> rfl
  | succ g ih =>
    intro prev s h
    cases s with
    | nil => rfl
    | cons c cs =>
      have h1 : c ≠ 'i' := fun hcc => h (hcc ▸ List.mem_cons_self c cs)
      have h2 : ('i' : Char) ∉ cs := fun hm => h (List.mem_cons_of_mem c hm)
      unfold replaceImesWordAux
      split
      · rfl
      · next _ _ _ _ heq _ =>
        cases heq
      · next _ _ _ _ f' rest' heq1 heq =>
        injection heq with heqc _
        exact absurd heqc h1
      · next _ _ _ _ f' c' rest' heq1 heq =>
        injection heq1 with hf
        subst hf
        injection heq with heqc heqr
        subst heqc
        subst heqr
        rw [ih (some c) cs h2]

lemma replaceImesWord_id (s : List Char) (h : ('i' : Char) ∉ s) :
    replaceImesWord s = s :=
  replaceImesWordAux_id s.length none s h

lemma inert_not_mem {s : List Char} (h : s.all inertChar = true) {t : Char}
    (ht : inertChar t = false) : t ∉ s := by
  intro hm
  rw [List.all_eq_true] at h
  have htt := h t hm
  rw [ht] at htt
  cases htt

/-- A string over the inert alphabet is a fixed point of the whole rewrite
pipeline. -/
lemma cleanPipeline_id_of_inert (s : List Char) (h : s.all inertChar = true) :
    cleanPipeline s = s := by
  have hbs : ('\\' : Char) ∉ s := inert_not_mem h (by decide)
  have htab : ('\t' : Char) ∉ s := inert_not_mem h (by decide)
  have hi : ('i' : Char) ∉ s := inert_not_mem h (by decide)
  have hx : ('x' : Char) ∉ s := inert_not_mem h (by decide)
  have hu : ('u' : Char) ∉ s := inert_not_mem h (by decide)
  have hcar : ('^' : Char) ∉ s := inert_not_mem h (by decide)
  have hg : ('g' : Char) ∉ s := inert_not_mem h (by decide)
  have hK : ('K' : Char) ∉ s := inert_not_mem h (by decide)
  have hC : ('C' : Char) ∉ s := inert_not_mem h (by decide)
  have hN : ('N' : Char) ∉ s := inert_not_mem h (by decide)
  simp only [cleanPipeline]
  rw [replaceLitTab_id s hbs, replaceTabChar_id s htab, replaceLitNewline_id s hbs,
    replaceTimesBetween_id s hi, replaceImesWord_id s hi, replaceExtmu_id s hx,
    replaceDigitMu_id s hu, replaceCaretEXto_id s hcar, replaceXto_id s hx,
    replaceCaretE_id s hcar, replaceDeg_id s hg, replaceTextO_id s hbs,
    replaceKsp_id s hK, replaceCaOH2_id s hC, replaceNaOH_id s hN,
    replaceBoldsymbol_id s hbs, replaceStyle_id s hbs, replaceOldtext_id s hbs]

/-- C3 (counterexample): `cleanLatex` is not idempotent, and a later rule
re-introduces the pattern of an earlier rule: on `a imes b` the
word-boundary rule emits `\times`, whose literal backslash-t pair is the
pattern of the very first rule, so a second application yields the
different string `a  \times b`. -/
theorem c3_sanitize_idempotent_counterexample :
    cleanLatex (JsArg.str ['a', ' ', 'i', 'm', 'e', 's', ' ', 'b']) =
      ['a', ' ', '\\', 't', 'i', 'm', 'e', 's', ' ', 'b'] ∧
    cleanLatex (JsArg.str (cleanLatex (JsArg.str ['a', ' ', 'i', 'm', 'e', 's', ' ', 'b']))) ≠
      cleanLatex (JsArg.str ['a', ' ', 'i', 'm', 'e', 's', ' ', 'b']) ∧
    ['\\', 't'] <:+: cleanLatex (JsArg.str ['a', ' ', 'i', 'm', 'e', 's', ' ', 'b']) :=
  ⟨by rfl, by decide, by decide⟩

/-- C3 (amended): `cleanLatex` fixes — hence is idempotent on — every
string over the inert alphabet (text containing no character of any rewrite
pattern); idempotence fails in general because the `\times` replacement
re-introduces the literal backslash-t pattern consumed by the first rule. -/
theorem c3_sanitize_idempotent_amended (s : List Char)
    (h : s.all inertChar = true) :
    cleanLatex (JsArg.str s) = s ∧
    cleanLatex (JsArg.str (cleanLatex (JsArg.str s))) = cleanLatex (JsArg.str s) := by
  have hid : cleanPipeline s = s := cleanPipeline_id_of_inert s h
  refine ⟨hid, ?_⟩
  show cleanPipeline (cleanPipeline s) = cleanPipeline s
  rw [hid]
  exact hid

/-- Witness for the amended C3 at the clean input `hello world`. -/
theorem c3_sanitize_idempotent_witness :
    cleanLatex (JsArg.str ['h', 'e', 'l', 'l', 'o', ' ', 'w', 'o', 'r', 'l', 'd']) =
      ['h', 'e', 'l', 'l', 'o', ' ', 'w', 'o', 'r', 'l', 'd'] :=
  (c3_sanitize_idempotent_amended
    ['h', 'e', 'l', 'l', 'o', ' ', 'w', 'o', 'r', 'l', 'd'] (by decide)).1

/-- C8 (counterexample): in `1imes2imes3` both `imes` tokens sit between
digits, but only the first is rewritten: the first match consumes the `2`,
and the word-boundary fallback rejects the second occurrence, so the
digit-imes-digit substring `2imes3` survives in the output. -/
theorem c8_times_rewrite_counterexample :
    cleanLatex (JsArg.str ['1', 'i', 'm', 'e', 's', '2', 'i', 'm', 'e', 's', '3']) =
      ['1', ' ', '\\', 't', 'i', 'm', 'e', 's', ' ', '2', 'i', 'm', 'e', 's', '3'] ∧
    ['2', 'i', 'm', 'e', 's', '3'] <:+:
      cleanLatex (JsArg.str ['1', 'i', 'm', 'e', 's', '2', 'i', 'm', 'e', 's', '3']) :=
  ⟨by rfl, by decide⟩

/-- C8 (amended): a digit-imes-digit token standing alone as the input — a
single, non-overlapping occurrence — is rewritten to the escaped
multiplication form, for every pair of digits; in particular
`2 imes 3?` becomes `2 \times 3?`. -/
theorem c8_times_rewrite_amended :
    (∀ d1 ∈ digitChars, ∀ d2 ∈ digitChars,
      cleanLatex (JsArg.str [d1, ' ', 'i', 'm', 'e', 's', ' ', d2]) =
        [d1, ' ', '\\', 't', 'i', 'm', 'e', 's', ' ', d2]) ∧
    cleanLatex (JsArg.str ['2', ' ', 'i', 'm', 'e', 's', ' ', '3', '?']) =
      ['2', ' ', '\\', 't', 'i', 'm', 'e', 's', ' ', '3', '?'] := by
  constructor
  · decide
  · rfl

/-- Witness for the amended C8 at the digits `2` and `3`. -/
theorem c8_times_rewrite_witness :
    cleanLatex (JsArg.str ['2', ' ', 'i', 'm', 'e', 's', ' ', '3']) =
      ['2', ' ', '\\', 't', 'i', 'm', 'e', 's', ' ', '3'] :=
  c8_times_rewrite_amended.1 '2' (by decide) '3' (by decide)

/-! ### Wrapper-stripping lemmas (C4) -/

lemma not_mem_arg_brace {t : Char} {arg : List Char}
    (h2 : t ∉ arg) (h4 : t ≠ '}') : t ∉ arg ++ ['}'] := by
  intro hm
  rcases List.mem_append.mp hm with hm | hm
  · exact h2 hm
  · rcases List.mem_cons.mp hm with hm | hm
    · exact h4 hm
    · cases hm

lemma not_mem_brace_arg {t : Char} {arg : List Char}
    (h2 : t ∉ arg) (h3 : t ≠ '{') (h4 : t ≠ '}') :
    t ∉ '{' :: (arg ++ ['}']) := by
  intro hm
  rcases List.mem_cons.mp hm with hm | hm
  · exact h3 hm
  · exact not_mem_arg_brace h2 h4 hm

lemma not_mem_wrapped {t : Char} {tok arg : List Char}
    (h1 : t ∉ tok) (h2 : t ∉ arg) (h3 : t ≠ '{') (h4 : t ≠ '}') :
    t ∉ tok ++ '{' :: (arg ++ ['}']) := by
  intro hm
  rcases List.mem_append.mp hm with hm | hm
  · exact h1 hm
  · exact not_mem_brace_arg h2 h3 h4 hm

lemma cleanPipeline_boldsymbol (arg : List Char) (h : arg.all inertChar = true) :
    cleanPipeline (boldsymbolTok ++ '{' :: (arg ++ ['}'])) = '{' :: (arg ++ ['}']) := by
  have hbsA : ('\\' : Char) ∉ arg := inert_not_mem h (by decide)
  have htabA : ('\t' : Char) ∉ arg := inert_not_mem h (by decide)
  have hiA : ('i' : Char) ∉ arg := inert_not_mem h (by decide)
  have hxA : ('x' : Char) ∉ arg := inert_not_mem h (by decide)
  have huA : ('u' : Char) ∉ arg := inert_not_mem h (by decide)
  have hcarA : ('^' : Char) ∉ arg := inert_not_mem h (by decide)
  have hgA : ('g' : Char) ∉ arg := inert_not_mem h (by decide)
  have hKA : ('K' : Char) ∉ arg := inert_not_mem h (by decide)
  have hCA : ('C' : Char) ∉ arg := inert_not_mem h (by decide)
  have hNA : ('N' : Char) ∉ arg := inert_not_mem h (by decide)
  have hX1 : ('\\' : Char) ∉ arg ++ ['}'] := not_mem_arg_brace hbsA (by decide)
  have hr1 : ('\\' : Char) ∉ '{' :: (arg ++ ['}']) :=
    not_mem_brace_arg hbsA (by decide) (by decide)
  have hWtab : ('\t' : Char) ∉ boldsymbolTok ++ '{' :: (arg ++ ['}']) :=
    not_mem_wrapped (by decide) htabA (by decide) (by decide)
  have hWi : ('i' : Char) ∉ boldsymbolTok ++ '{' :: (arg ++ ['}']) :=
    not_mem_wrapped (by decide) hiA (by decide) (by decide)
  have hWx : ('x' : Char) ∉ boldsymbolTok ++ '{' :: (arg ++ ['}']) :=
    not_mem_wrapped (by decide) hxA (by decide) (by decide)
  have hWu : ('u' : Char) ∉ boldsymbolTok ++ '{' :: (arg ++ ['}']) :=
    not_mem_wrapped (by decide) huA (by decide) (by decide)
  have hWcar : ('^' : Char) ∉ boldsymbolTok ++ '{' :: (arg ++ ['}']) :=
    not_mem_wrapped (by decide) hcarA (by decide) (by decide)
  have hWg : ('g' : Char) ∉ boldsymbolTok ++ '{' :: (arg ++ ['}']) :=
    not_mem_wrapped (by decide) hgA (by decide) (by decide)
  have hWK : ('K' : Char) ∉ boldsymbolTok ++ '{' :: (arg ++ ['}']) :=
    not_mem_wrapped (by decide) hKA (by decide) (by decide)
  have hWC : ('C' : Char) ∉ boldsymbolTok ++ '{' :: (arg ++ ['}']) :=
    not_mem_wrapped (by decide) hCA (by decide) (by decide)
  have hWN : ('N' : Char) ∉ boldsymbolTok ++ '{' :: (arg ++ ['}']) :=
    not_mem_wrapped (by decide) hNA (by decide) (by decide)
  have p1 : replaceLitTab (boldsymbolTok ++ '{' :: (arg ++ ['}'])) =
      boldsymbolTok ++ '{' :: (arg ++ ['}']) := by
    rw [show replaceLitTab (boldsymbolTok ++ '{' :: (arg ++ ['}'])) =
        boldsymbolTok ++ '{' :: replaceLitTab (arg ++ ['}']) from rfl,
      replaceLitTab_id _ hX1]
  have p3 : replaceLitNewline (boldsymbolTok ++ '{' :: (arg ++ ['}'])) =
      boldsymbolTok ++ '{' :: (arg ++ ['}']) := by
    rw [show replaceLitNewline (boldsymbolTok ++ '{' :: (arg ++ ['}'])) =
        boldsymbolTok ++ '{' :: replaceLitNewline (arg ++ ['}']) from rfl,
      replaceLitNewline_id _ hX1]
  have p12 : replaceTextO (boldsymbolTok ++ '{' :: (arg ++ ['}'])) =
      boldsymbolTok ++ '{' :: (arg ++ ['}']) := by
    rw [show replaceTextO (boldsymbolTok ++ '{' :: (arg ++ ['}'])) =
        boldsymbolTok ++ '{' :: replaceTextO (arg ++ ['}']) from rfl,
      replaceTextO_id _ hX1]
  have p16 : replaceBoldsymbol (boldsymbolTok ++ '{' :: (arg ++ ['}'])) =
      '{' :: (arg ++ ['}']) := by
    rw [show replaceBoldsymbol (boldsymbolTok ++ '{' :: (arg ++ ['}'])) =
        '{' :: replaceBoldsymbol (arg ++ ['}']) from rfl,
      replaceBoldsymbol_id _ hX1]
  simp only [cleanPipeline]
  rw [p1, replaceTabChar_id _ hWtab, p3, replaceTimesBetween_id _ hWi,
    replaceImesWord_id _ hWi, replaceExtmu_id _ hWx, replaceDigitMu_id _ hWu,
    replaceCaretEXto_id _ hWcar, replaceXto_id _ hWx, replaceCaretE_id _ hWcar,
    replaceDeg_id _ hWg, p12, replaceKsp_id _ hWK, replaceCaOH2_id _ hWC,
    replaceNaOH_id _ hWN, p16, replaceStyle_id _ hr1, replaceOldtext_id _ hr1]

lemma cleanPipeline_style (arg : List Char) (h : arg.all inertChar = true) :
    cleanPipeline (styleTok ++ '{' :: (arg ++ ['}'])) = '{' :: (arg ++ ['}']) := by
  have hbsA : ('\\' : Char) ∉ arg := inert_not_mem h (by decide)
  have htabA : ('\t' : Char) ∉ arg := inert_not_mem h (by decide)
  have hiA : ('i' : Char) ∉ arg := inert_not_mem h (by decide)
  have hxA : ('x' : Char) ∉ arg := inert_not_mem h (by decide)
  have huA : ('u' : Char) ∉ arg := inert_not_mem h (by decide)
  have hcarA : ('^' : Char) ∉ arg := inert_not_mem h (by decide)
  have hgA : ('g' : Char) ∉ arg := inert_not_mem h (by decide)
  have hKA : ('K' : Char) ∉ arg := inert_not_mem h (by decide)
  have hCA : ('C' : Char) ∉ arg := inert_not_mem h (by decide)
  have hNA : ('N' : Char) ∉ arg := inert_not_mem h (by decide)
  have hX1 : ('\\' : Char) ∉ arg ++ ['}'] := not_mem_arg_brace hbsA (by decide)
  have hr1 : ('\\' : Char) ∉ '{' :: (arg ++ ['}']) :=
    not_mem_brace_arg hbsA (by decide) (by decide)
  have hWtab : ('\t' : Char) ∉ styleTok ++ '{' :: (arg ++ ['}']) :=
    not_mem_wrapped (by decide) htabA (by decide) (by decide)
  have hWi : ('i' : Char) ∉ styleTok ++ '{' :: (arg ++ ['}']) :=
    not_mem_wrapped (by decide) hiA (by decide) (by decide)
  have hWx : ('x' : Char) ∉ styleTok ++ '{' :: (arg ++ ['}']) :=
    not_mem_wrapped (by decide) hxA (by decide) (by decide)
  have hWu : ('u' : Char) ∉ styleTok ++ '{' :: (arg ++ ['}']) :=
    not_mem_wrapped (by decide) huA (by decide) (by decide)
  have hWcar : ('^' : Char) ∉ styleTok ++ '{' :: (arg ++ ['}']) :=
    not_mem_wrapped (by decide) hcarA (by decide) (by decide)
  have hWg : ('g' : Char) ∉ styleTok ++ '{' :: (arg ++ ['}']) :=
    not_mem_wrapped (by decide) hgA (by decide) (by decide)
  have hWK : ('K' : Char) ∉ styleTok ++ '{' :: (arg ++ ['}']) :=
    not_mem_wrapped (by decide) hKA (by decide) (by decide)
  have hWC : ('C' : Char) ∉ styleTok ++ '{' :: (arg ++ ['}']) :=
    not_mem_wrapped (by decide) hCA (by decide) (by decide)
  have hWN : ('N' : Char) ∉ styleTok ++ '{' :: (arg ++ ['}']) :=
    not_mem_wrapped (by decide) hNA (by decide) (by decide)
  have p1 : replaceLitTab (styleTok ++ '{' :: (arg ++ ['}'])) =
      styleTok ++ '{' :: (arg ++ ['}']) := by
    rw [show replaceLitTab (styleTok ++ '{' :: (arg ++ ['}'])) =
        styleTok ++ '{' :: replaceLitTab (arg ++ ['}']) from rfl,
      replaceLitTab_id _ hX1]
  have p3 : replaceLitNewline (styleTok ++ '{' :: (arg ++ ['}'])) =
      styleTok ++ '{' :: (arg ++ ['}']) := by
    rw [show replaceLitNewline (styleTok ++ '{' :: (arg ++ ['}'])) =
        styleTok ++ '{' :: replaceLitNewline (arg ++ ['}']) from rfl,
      replaceLitNewline_id _ hX1]
  have p12 : replaceTextO (styleTok ++ '{' :: (arg ++ ['}'])) =
      styleTok ++ '{' :: (arg ++ ['}']) := by
    rw [show replaceTextO (styleTok ++ '{' :: (arg ++ ['}'])) =
        styleTok ++ '{' :: replaceTextO (arg ++ ['}']) from rfl,
      replaceTextO_id _ hX1]
  have p16 : replaceBoldsymbol (styleTok ++ '{' :: (arg ++ ['}'])) =
      styleTok ++ '{' :: (arg ++ ['}']) := by
    rw [show replaceBoldsymbol (styleTok ++ '{' :: (arg ++ ['}'])) =
        styleTok ++ '{' :: replaceBoldsymbol (arg ++ ['}']) from rfl,
      replaceBoldsymbol_id _ hX1]
  have p17 : replaceStyle (styleTok ++ '{' :: (arg ++ ['}'])) =
      '{' :: (arg ++ ['}']) := by
    rw [show replaceStyle (styleTok ++ '{' :: (arg ++ ['}'])) =
        '{' :: replaceStyle (arg ++ ['}']) from rfl,
      replaceStyle_id _ hX1]
  simp only [cleanPipeline]
  rw [p1, replaceTabChar_id _ hWtab, p3, replaceTimesBetween_id _ hWi,
    replaceImesWord_id _ hWi, replaceExtmu_id _ hWx, replaceDigitMu_id _ hWu,
    replaceCaretEXto_id _ hWcar, replaceXto_id _ hWx, replaceCaretE_id _ hWcar,
    replaceDeg_id _ hWg, p12, replaceKsp_id _ hWK, replaceCaOH2_id _ hWC,
    replaceNaOH_id _ hWN, p16, p17, replaceOldtext_id _ hr1]

lemma cleanPipeline_oldtext (arg : List Char) (h : arg.all inertChar = true) :
    cleanPipeline (oldtextTok ++ '{' :: (arg ++ ['}'])) = '{' :: (arg ++ ['}']) := by
  have hbsA : ('\\' : Char) ∉ arg := inert_not_mem h (by decide)
  have htabA : ('\t' : Char) ∉ arg := inert_not_mem h (by decide)
  have hiA : ('i' : Char) ∉ arg := inert_not_mem h (by decide)
  have hxA : ('x' : Char) ∉ arg := inert_not_mem h (by decide)
  have huA : ('u' : Char) ∉ arg := inert_not_mem h (by decide)
  have hcarA : ('^' : Char) ∉ arg := inert_not_mem h (by decide)
  have hgA : ('g' : Char) ∉ arg := inert_not_mem h (by decide)
  have hKA : ('K' : Char) ∉ arg := inert_not_mem h (by decide)
  have hCA : ('C' : Char) ∉ arg := inert_not_mem h (by decide)
  have hNA : ('N' : Char) ∉ arg := inert_not_mem h (by decide)
  have hX1 : ('\\' : Char) ∉ arg ++ ['}'] := not_mem_arg_brace hbsA (by decide)
  have hXx : ('x' : Char) ∉ arg ++ ['}'] := not_mem_arg_brace hxA (by decide)
  have hr1 : ('\\' : Char) ∉ '{' :: (arg ++ ['}']) :=
    not_mem_brace_arg hbsA (by decide) (by decide)
  have hWtab : ('\t' : Char) ∉ oldtextTok ++ '{' :: (arg ++ ['}']) :=
    not_mem_wrapped (by decide) htabA (by decide) (by decide)
  have hWi : ('i' : Char) ∉ oldtextTok ++ '{' :: (arg ++ ['}']) :=
    not_mem_wrapped (by decide) hiA (by decide) (by decide)
  have hWu : ('u' : Char) ∉ oldtextTok ++ '{' :: (arg ++ ['}']) :=
    not_mem_wrapped (by decide) huA (by decide) (by decide)
  have hWcar : ('^' : Char) ∉ oldtextTok ++ '{' :: (arg ++ ['}']) :=
    not_mem_wrapped (by decide) hcarA (by decide) (by decide)
  have hWg : ('g' : Char) ∉ oldtextTok ++ '{' :: (arg ++ ['}']) :=
    not_mem_wrapped (by decide) hgA (by decide) (by decide)
  have hWK : ('K' : Char) ∉ oldtextTok ++ '{' :: (arg ++ ['}']) :=
    not_mem_wrapped (by decide) hKA (by decide) (by decide)
  have hWC : ('C' : Char) ∉ oldtextTok ++ '{' :: (arg ++ ['}']) :=
    not_mem_wrapped (by decide) hCA (by decide) (by decide)
  have hWN : ('N' : Char) ∉ oldtextTok ++ '{' :: (arg ++ ['}']) :=
    not_mem_wrapped (by decide) hNA (by decide) (by decide)
  have p1 : replaceLitTab (oldtextTok ++ '{' :: (arg ++ ['}'])) =
      oldtextTok ++ '{' :: (arg ++ ['}']) := by
    rw [show replaceLitTab (oldtextTok ++ '{' :: (arg ++ ['}'])) =
        oldtextTok ++ '{' :: replaceLitTab (arg ++ ['}']) from rfl,
      replaceLitTab_id _ hX1]
  have p3 : replaceLitNewline (oldtextTok ++ '{' :: (arg ++ ['}'])) =
      oldtextTok ++ '{' :: (arg ++ ['}']) := by
    rw [show replaceLitNewline (oldtextTok ++ '{' :: (arg ++ ['}'])) =
        oldtextTok ++ '{' :: replaceLitNewline (arg ++ ['}']) from rfl,
      replaceLitNewline_id _ hX1]
  have p6 : replaceExtmu (oldtextTok ++ '{' :: (arg ++ ['}'])) =
      oldtextTok ++ '{' :: (arg ++ ['}']) := by
    rw [show replaceExtmu (oldtextTok ++ '{' :: (arg ++ ['}'])) =
        oldtextTok ++ '{' :: replaceExtmu (arg ++ ['}']) from rfl,
      replaceExtmu_id _ hXx]
  have p9 : replaceXto (oldtextTok ++ '{' :: (arg ++ ['}'])) =
      oldtextTok ++ '{' :: (arg ++ ['}']) := by
    rw [show replaceXto (oldtextTok ++ '{' :: (arg ++ ['}'])) =
        oldtextTok ++ '{' :: replaceXto (arg ++ ['}']) from rfl,
      replaceXto_id _ hXx]
  have p12 : replaceTextO (oldtextTok ++ '{' :: (arg ++ ['}'])) =
      oldtextTok ++ '{' :: (arg ++ ['}']) := by
    rw [show replaceTextO (oldtextTok ++ '{' :: (arg ++ ['}'])) =
        oldtextTok ++ '{' :: replaceTextO (arg ++ ['}']) from rfl,
      replaceTextO_id _ hX1]
  have p16 : replaceBoldsymbol (oldtextTok ++ '{' :: (arg ++ ['}'])) =
      oldtextTok ++ '{' :: (arg ++ ['}']) := by
    rw [show replaceBoldsymbol (oldtextTok ++ '{' :: (arg ++ ['}'])) =
        oldtextTok ++ '{' :: replaceBoldsymbol (arg ++ ['}']) from rfl,
      replaceBoldsymbol_id _ hX1]
  have p17 : replaceStyle (oldtextTok ++ '{' :: (arg ++ ['}'])) =
      oldtextTok ++ '{' :: (arg ++ ['}']) := by
    rw [show replaceStyle (oldtextTok ++ '{' :: (arg ++ ['}'])) =
        oldtextTok ++ '{' :: replaceStyle (arg ++ ['}']) from rfl,
      replaceStyle_id _ hX1]
  have p18 : replaceOldtext (oldtextTok ++ '{' :: (arg ++ ['}'])) =
      '{' :: (arg ++ ['}']) := by
    rw [show replaceOldtext (oldtextTok ++ '{' :: (arg ++ ['}'])) =
        '{' :: replaceOldtext (arg ++ ['}']) from rfl,
      replaceOldtext_id _ hX1]
  simp only [cleanPipeline]
  rw [p1, replaceTabChar_id _ hWtab, p3, replaceTimesBetween_id _ hWi,
    replaceImesWord_id _ hWi, p6, replaceDigitMu_id _ hWu,
    replaceCaretEXto_id _ hWcar, p9, replaceCaretE_id _ hWcar,
    replaceDeg_id _ hWg, p12, replaceKsp_id _ hWK, replaceCaOH2_id _ hWC,
    replaceNaOH_id _ hWN, p16, p17, p18]

/-- C4 (counterexample): the wrapper command token is deleted, but the
argument content is not preserved verbatim: on `\boldsymbol{deg}` the
`deg` rewrite also fires inside the argument, so the output `{^\circ}` no
longer contains the argument content `deg`. -/
theorem c4_wrapper_strip_counterexample :
    cleanLatex (JsArg.str (boldsymbolTok ++ '{' :: (['d', 'e', 'g'] ++ ['}']))) =
      ['{', '^', '\\', 'c', 'i', 'r', 'c', '}'] ∧
    ¬ (['d', 'e', 'g'] <:+:
        cleanLatex (JsArg.str (boldsymbolTok ++ '{' :: (['d', 'e', 'g'] ++ ['}'])))) :=
  ⟨by rfl, by decide⟩

/-- C4 (amended): for each of the three decorative wrappers applied to an
argument over the inert alphabet (argument content matching no rewrite
rule), `cleanLatex` deletes the wrapper command token and returns the braced
argument content unchanged. -/
theorem c4_wrapper_strip_amended (arg : List Char) (h : arg.all inertChar = true) :
    cleanLatex (JsArg.str (boldsymbolTok ++ '{' :: (arg ++ ['}']))) =
      '{' :: (arg ++ ['}']) ∧
    cleanLatex (JsArg.str (styleTok ++ '{' :: (arg ++ ['}']))) =
      '{' :: (arg ++ ['}']) ∧
    cleanLatex (JsArg.str (oldtextTok ++ '{' :: (arg ++ ['}']))) =
      '{' :: (arg ++ ['}']) :=
  ⟨cleanPipeline_boldsymbol arg h, cleanPipeline_style arg h,
    cleanPipeline_oldtext arg h⟩

/-- Witness for the amended C4 at the argument `a+b` under all three
wrappers. -/
theorem c4_wrapper_strip_witness :
    cleanLatex (JsArg.str (boldsymbolTok ++ '{' :: (['a', '+', 'b'] ++ ['}']))) =
      '{' :: (['a', '+', 'b'] ++ ['}']) ∧
    cleanLatex (JsArg.str (styleTok ++ '{' :: (['a', '+', 'b'] ++ ['}']))) =
      '{' :: (['a', '+', 'b'] ++ ['}']) ∧
    cleanLatex (JsArg.str (oldtextTok ++ '{' :: (['a', '+', 'b'] ++ ['}']))) =
      '{' :: (['a', '+', 'b'] ++ ['}']) :=
  c4_wrapper_strip_amended ['a', '+', 'b'] (by decide)

end Smartmcqpro
